import Mathlib

/-
  Shallow embedding of the CHIP-8 interpreter core of `src/src/chip8.c`
  (the `emulate_instruction` function and its helpers).

  Modelling conventions:
  * machine integers are `Nat` with an explicit `% 2^w` exactly where the C
    code truncates on store (`uint8_t` cells: `% 256`; `uint16_t` registers
    `I`/`PC` and the `-= 2` / `++` wraps: `% 65536`);
  * the byte array `ram`, the register file `V`, the keypad and the display
    are modelled as total functions — the C code performs *unchecked* raw
    indexing into fixed arrays, so an index outside the array's extent is
    simply an access to a cell the C program has no right to touch; keeping
    the functions total lets us state exactly which (possibly out-of-range)
    index the code uses;
  * the stack pointer `stackPtr` (a pointer into `uint16_t stack[12]`) is
    modelled as the integer offset `sp : Int` from `&stack[0]`, and the
    stack array as a total function `Int → Nat`, so that the pointer
    arithmetic `*chip8->stackPtr++` / `*--chip8->stackPtr` is represented
    without any implicit bounds check;
  * the two C `static` locals of the FX0A handler (`any_key_pressed`,
    `key`) are part of the machine state (`anyKeyPressed`, `key`);
  * `rand() % 256` of the CXNN handler is an input `rnd` of the step;
  * `config.windowWidth = 64` and `config.windowHeight = 32` (fixed by
    `set_config`) are inlined as the literals 64 and 32;
  * Nat translations of the C bit operations, exact for all arguments:
    `x >> k` is `x / 2^k`, `x & (2^k - 1)` is `x % 2^k`,
    `(x & 0x80) >> 7` is `x / 128 % 2`.
-/

namespace Chip8Emu

/-- `extension_t` of chip8.c: CHIP8 is the base architecture, the other two
select the extended ("modern") behavior in every mode check of the code. -/
inductive Extension where
  | CHIP8
  | SUPERCHIP
  | XOCHIP
deriving DecidableEq

/-- `chip8_t` of chip8.c, restricted to the fields the interpreter core
reads or writes (window/color fields are presentation-only).  `key` and
`anyKeyPressed` are the C `static` locals of the FX0A handler. -/
structure Chip8 where
  ram : Nat → Nat
  display : Nat → Bool
  stack : Int → Nat
  sp : Int
  V : Nat → Nat
  I : Nat
  PC : Nat
  delayTimer : Nat
  soundTimer : Nat
  keypad : Nat → Bool
  draw : Bool
  anyKeyPressed : Bool
  key : Nat

/-- Pointwise function update (a store into a C array cell). -/
def upd (f : Nat → Nat) (k v : Nat) : Nat → Nat :=
  fun a => if a = k then v else f a

/-- Pointwise update of a boolean cell (a store into `bool display[]`). -/
def updB (f : Nat → Bool) (k : Nat) (v : Bool) : Nat → Bool :=
  fun a => if a = k then v else f a

/-- Pointwise update of a stack cell (a store through `stackPtr`). -/
def updS (f : Int → Nat) (k : Int) (v : Nat) : Int → Nat :=
  fun a => if a = k then v else f a

/-- Fetch: `(chip8->ram[chip8->PC] << 8) | chip8->ram[chip8->PC + 1]`.
The two operands are `uint8_t` cells (always < 256 in C), so shift-or is
plain positional arithmetic.  The indices `PC` and `PC + 1` are used raw,
exactly as the C code does (no mask to the 4096-byte extent). -/
def fetchWord (st : Chip8) : Nat :=
  st.ram st.PC * 256 + st.ram (st.PC + 1)

/-- `chip8->PC += 2` performed right after the fetch (uint16 wraparound). -/
def postFetchPC (st : Chip8) : Nat :=
  (st.PC + 2) % 65536

/-- The keypad index `chip8->V[chip8->inst.X]` used by EX9E/EXA1 — the raw
register content, not masked to the 16-entry keypad. -/
def keyIdx (w : Nat) (st : Chip8) : Nat :=
  st.V (w / 256 % 16)

/-- The FX0A scan loop
`for (i = 0; key == 0xFF && i < 16; i++) if (keypad[i]) { key = i; ... }`:
first pressed index in `[i, i+n)`, if any. -/
def findPressed (kp : Nat → Bool) : Nat → Nat → Option Nat
  | _, 0 => none
  | i, n + 1 => if kp i then some i else findPressed kp (i + 1) n

/-- Result `(key, any_key_pressed)` of the FX0A scan loop: the loop body
only runs while `key == 0xFF`, and sets `key = i`, `any_key_pressed = true`
at the first pressed key. -/
def fx0aScan (st : Chip8) : Nat × Bool :=
  if st.key = 255 then
    match findPressed st.keypad 0 16 with
    | some i => (i, true)
    | none => (st.key, st.anyKeyPressed)
  else (st.key, st.anyKeyPressed)

/-- The FX55 loop `for (i = 0; i <= X; i++)`; `fuel` counts the remaining
iterations (`X + 1` at entry), `i` is the loop counter.  Base architecture:
`chip8->ram[chip8->I++] = chip8->V[i]` (uint16 wrap on `I++`); otherwise:
`chip8->ram[chip8->I + i] = chip8->V[i]` with `I` unchanged. -/
def dumpLoop (ext : Extension) (V : Nat → Nat) :
    Nat → Nat → Nat → (Nat → Nat) → (Nat → Nat) × Nat
  | _, 0, I, ram => (ram, I)
  | i, n + 1, I, ram =>
    if ext = Extension.CHIP8 then
      dumpLoop ext V (i + 1) n ((I + 1) % 65536) (upd ram I (V i))
    else
      dumpLoop ext V (i + 1) n I (upd ram (I + i) (V i))

/-- The FX65 loop, symmetric to `dumpLoop`: Base architecture reads
`chip8->V[i] = chip8->ram[chip8->I++]`; otherwise `V[i] = ram[I + i]`. -/
def loadLoop (ext : Extension) (ram : Nat → Nat) :
    Nat → Nat → Nat → (Nat → Nat) → (Nat → Nat) × Nat
  | _, 0, I, V => (V, I)
  | i, n + 1, I, V =>
    if ext = Extension.CHIP8 then
      loadLoop ext ram (i + 1) n ((I + 1) % 65536) (upd V i (ram I))
    else
      loadLoop ext ram (i + 1) n I (upd V i (ram (I + i)))

/-- Display-and-collision-flag pair threaded through the DXYN loops
(`chip8->display` and `chip8->V[0xF]`, the latter as a Bool since the
instruction first zeroes it and then only ever writes 1). -/
structure DrawSt where
  display : Nat → Bool
  vf : Bool

/-- The DXYN inner loop `for (int8_t j = 7; j >= 0; j--)`: draw one sprite
row byte `sd` at row `Y`, starting at column `X`; each iteration XORs
sprite bit `j` into `display[Y*64 + X]`, records a collision when both the
bit and the pixel are set, then stops when `++X_cord >= 64` (clipping). -/
def drawRow (sd Y : Nat) : Nat → Nat → DrawSt → DrawSt
  | X, j, st =>
    let bit : Bool := decide (sd / 2 ^ j % 2 = 1)
    let idx := Y * 64 + X
    let st' : DrawSt :=
      { display := updB st.display idx (xor (st.display idx) bit)
        vf := st.vf || (bit && st.display idx) }
    if X + 1 ≥ 64 then st'
    else
      match j with
      | 0 => st'
      | j' + 1 => drawRow sd Y (X + 1) j' st'

/-- The DXYN outer loop `for (uint8_t i = 0; i < chip8->inst.N; i++)`:
`rows` is the list of sprite bytes `ram[I + i]` for `i < N`; each row is
drawn at `Y` starting at column `ox`, and the loop stops when
`++Y_Cord >= 32` (clipping). -/
def drawRows (ox : Nat) : List Nat → Nat → DrawSt → DrawSt
  | [], _, st => st
  | sd :: rest, Y, st =>
    let st' := drawRow sd Y ox 7 st
    if Y + 1 ≥ 32 then st' else drawRows ox rest (Y + 1) st'

/-- The set of display cells toggled by one `drawRow` call, as a boolean
mask; mirrors the recursion of `drawRow` and is independent of the display
contents. -/
def rowMask (sd Y : Nat) : Nat → Nat → Nat → Bool
  | X, j, p =>
    let bit : Bool := decide (sd / 2 ^ j % 2 = 1)
    let here := decide (p = Y * 64 + X) && bit
    if X + 1 ≥ 64 then here
    else
      match j with
      | 0 => here
      | j' + 1 => xor here (rowMask sd Y (X + 1) j' p)

/-- Whether one `drawRow` call over display `d` records a collision. -/
def rowHit (sd Y : Nat) (d : Nat → Bool) : Nat → Nat → Bool
  | X, j =>
    let bit : Bool := decide (sd / 2 ^ j % 2 = 1)
    let here := bit && d (Y * 64 + X)
    if X + 1 ≥ 64 then here
    else
      match j with
      | 0 => here
      | j' + 1 => here || rowHit sd Y d (X + 1) j'

/-- The set of display cells toggled by a whole `drawRows` call. -/
def spriteMask (ox : Nat) : List Nat → Nat → Nat → Bool
  | [], _, _ => false
  | sd :: rest, Y, p =>
    xor (rowMask sd Y ox 7 p)
      (if Y + 1 ≥ 32 then false else spriteMask ox rest (Y + 1) p)

/-- Whether a whole `drawRows` call over display `d` records a collision
(each row is checked against `d` itself; rows live at distinct `Y`, so the
mutations of earlier rows never alias the reads of later ones). -/
def spriteHit (ox : Nat) (d : Nat → Bool) : List Nat → Nat → Bool
  | [], _ => false
  | sd :: rest, Y =>
    rowHit sd Y d ox 7 ||
      (if Y + 1 ≥ 32 then false else spriteHit ox d rest (Y + 1))

/-- The dispatch `switch ((chip8->inst.opcode >> 12) & 0x000F)` of
`emulate_instruction`, applied to the already-advanced state (the C code
performs `chip8->PC += 2` before the switch).  `w` is the fetched word,
`ext` is `config.extension`, `rnd` models `rand() % 256`.  The C `switch`
is rendered as an `if`-chain on the top nibble; each branch is a literal
transcription of the corresponding `case` of chip8.c lines 617-876. -/
def execInst (ext : Extension) (rnd : Nat) (w : Nat) (st : Chip8) : Chip8 :=
  let NNN := w % 4096
  let NN := w % 256
  let N := w % 16
  let X := w / 256 % 16
  let Y := w / 16 % 16
  let op := w / 4096 % 16
  if op = 0 then
    if NN = 0xE0 then { st with display := fun _ => false }
    else if NN = 0xEE then
      { st with sp := st.sp - 1, PC := st.stack (st.sp - 1) }
    else st
  else if op = 1 then { st with PC := NNN }
  else if op = 2 then
    { st with stack := updS st.stack st.sp st.PC, sp := st.sp + 1, PC := NNN }
  else if op = 3 then
    if st.V X = NN then { st with PC := (st.PC + 2) % 65536 } else st
  else if op = 4 then
    if st.V X ≠ NN then { st with PC := (st.PC + 2) % 65536 } else st
  else if op = 5 then
    if st.V X = st.V Y then { st with PC := (st.PC + 2) % 65536 } else st
  else if op = 6 then { st with V := upd st.V X NN }
  else if op = 7 then { st with V := upd st.V X ((st.V X + NN) % 256) }
  else if op = 8 then
    if N = 0 then { st with V := upd st.V X (st.V Y) }
    else if N = 1 then
      let st1 := { st with V := upd st.V X (st.V X ||| st.V Y) }
      if ext = Extension.CHIP8 then { st1 with V := upd st1.V 15 0 } else st1
    else if N = 2 then
      let st1 := { st with V := upd st.V X (st.V X &&& st.V Y) }
      if ext = Extension.CHIP8 then { st1 with V := upd st1.V 15 0 } else st1
    else if N = 3 then
      let st1 := { st with V := upd st.V X (st.V X ^^^ st.V Y) }
      if ext = Extension.CHIP8 then { st1 with V := upd st1.V 15 0 } else st1
    else if N = 4 then
      let carry : Nat := if st.V X + st.V Y > 255 then 1 else 0
      let st1 := { st with V := upd st.V X ((st.V X + st.V Y) % 256) }
      { st1 with V := upd st1.V 15 carry }
    else if N = 5 then
      let carry : Nat := if st.V X ≥ st.V Y then 1 else 0
      let st1 := { st with V := upd st.V X ((st.V X + 256 - st.V Y) % 256) }
      { st1 with V := upd st1.V 15 carry }
    else if N = 6 then
      let carry : Nat :=
        if ext = Extension.CHIP8 then st.V Y % 2 else st.V X % 2
      let st1 :=
        if ext = Extension.CHIP8 then { st with V := upd st.V X (st.V Y / 2) }
        else { st with V := upd st.V X (st.V X / 2) }
      { st1 with V := upd st1.V 15 carry }
    else if N = 7 then
      let carry : Nat := if st.V X ≤ st.V Y then 1 else 0
      let st1 := { st with V := upd st.V X ((st.V Y + 256 - st.V X) % 256) }
      { st1 with V := upd st1.V 15 carry }
    else if N = 0xE then
      let carry : Nat :=
        if ext = Extension.CHIP8 then st.V Y / 128 % 2 else st.V X / 128 % 2
      let st1 :=
        if ext = Extension.CHIP8 then
          { st with V := upd st.V X (st.V Y * 2 % 256) }
        else { st with V := upd st.V X (st.V X * 2 % 256) }
      { st1 with V := upd st1.V 15 carry }
    else st
  else if op = 9 then
    if st.V X ≠ st.V Y then { st with PC := (st.PC + 2) % 65536 } else st
  else if op = 10 then { st with I := NNN }
  else if op = 11 then { st with PC := (st.V 0 + NNN) % 65536 }
  else if op = 12 then { st with V := upd st.V X (rnd % 256 &&& NN) }
  else if op = 13 then
    let Xc := st.V X % 64
    let Yc := st.V Y % 32
    let rows := (List.range N).map fun i => st.ram (st.I + i)
    let d := drawRows Xc rows Yc ⟨st.display, false⟩
    { st with display := d.display
              V := upd st.V 15 (if d.vf then 1 else 0)
              draw := true }
  else if op = 14 then
    if NN = 0x9E then
      if st.keypad (keyIdx w st) then { st with PC := (st.PC + 2) % 65536 }
      else st
    else if NN = 0xA1 then
      if st.keypad (keyIdx w st) then st
      else { st with PC := (st.PC + 2) % 65536 }
    else st
  else if op = 15 then
    if NN = 0x07 then { st with V := upd st.V X st.delayTimer }
    else if NN = 0x0A then
      let scan := fx0aScan st
      let st1 := { st with key := scan.1, anyKeyPressed := scan.2 }
      if scan.2 = false then { st1 with PC := (st1.PC + 65534) % 65536 }
      else if st1.keypad scan.1 then { st1 with PC := (st1.PC + 65534) % 65536 }
      else { st1 with V := upd st1.V X scan.1, key := 255,
                      anyKeyPressed := false }
    else if NN = 0x15 then { st with delayTimer := st.V X }
    else if NN = 0x18 then { st with soundTimer := st.V X }
    else if NN = 0x1E then { st with I := (st.I + st.V X) % 65536 }
    else if NN = 0x29 then { st with I := st.V X * 5 % 65536 }
    else if NN = 0x33 then
      let bcd := st.V X
      let r2 := upd st.ram (st.I + 2) (bcd % 10)
      let r1 := upd r2 (st.I + 1) (bcd / 10 % 10)
      let r0 := upd r1 st.I (bcd / 10 / 10 % 10)
      { st with ram := r0 }
    else if NN = 0x55 then
      let res := dumpLoop ext st.V 0 (X + 1) st.I st.ram
      { st with ram := res.1, I := res.2 }
    else if NN = 0x65 then
      let res := loadLoop ext st.ram 0 (X + 1) st.I st.V
      { st with V := res.1, I := res.2 }
    else st
  else st

/-- `emulate_instruction` of chip8.c: fetch the big-endian word at
`[PC, PC+1]`, advance `PC` by 2, then dispatch on the decoded fields. -/
def emulate_instruction (ext : Extension) (rnd : Nat) (st : Chip8) : Chip8 :=
  execInst ext rnd (fetchWord st) { st with PC := postFetchPC st }

/-- Instruction words that hit no handler of the dispatch of chip8.c: the
top-nibble `switch` covers all 16 values, and within the 0/8/E/F families
the listed secondary keys are the only ones with a `case`.  The 5 and 9
families are *not* listed here: chip8.c dispatches them on the top nibble
alone, ignoring the low nibble (see claim C9). -/
def UnmatchedOp (w : Nat) : Prop :=
  (w / 4096 % 16 = 0 ∧ w % 256 ≠ 0xE0 ∧ w % 256 ≠ 0xEE) ∨
  (w / 4096 % 16 = 8 ∧ 7 < w % 16 ∧ w % 16 ≠ 14) ∨
  (w / 4096 % 16 = 14 ∧ w % 256 ≠ 0x9E ∧ w % 256 ≠ 0xA1) ∨
  (w / 4096 % 16 = 15 ∧ w % 256 ≠ 0x07 ∧ w % 256 ≠ 0x0A ∧
    w % 256 ≠ 0x15 ∧ w % 256 ≠ 0x18 ∧ w % 256 ≠ 0x1E ∧ w % 256 ≠ 0x29 ∧
    w % 256 ≠ 0x33 ∧ w % 256 ≠ 0x55 ∧ w % 256 ≠ 0x65)

/-- The set of display cells a DXYN instruction with word `w` toggles when
executed in state `st` (derived from the sprite bytes at `I`, the start
coordinates `VX mod 64` / `VY mod 32`, and the clipping of the two draw
loops). -/
def dxynMask (st : Chip8) (w : Nat) : Nat → Bool :=
  spriteMask (st.V (w / 256 % 16) % 64)
    ((List.range (w % 16)).map fun i => st.ram (st.I + i))
    (st.V (w / 16 % 16) % 32)

/-! ### Concrete states used by counterexamples and witnesses -/

/-- A freshly initialized machine (all-zero state, `PC = 0x200`,
`stackPtr = &stack[0]`, FX0A statics at their C initializers), with an
all-zero ROM; concrete states below override `ram`/`V`/... as needed. -/
def base : Chip8 :=
  { ram := fun _ => 0, display := fun _ => false, stack := fun _ => 0,
    sp := 0, V := fun _ => 0, I := 0, PC := 0x200,
    delayTimer := 0, soundTimer := 0, keypad := fun _ => false,
    draw := false, anyKeyPressed := false, key := 255 }

/-- A two-byte ROM image loaded at the 0x200 entry point. -/
def rom2 (b0 b1 : Nat) : Nat → Nat :=
  fun a => if a = 0x200 then b0 else if a = 0x201 then b1 else 0

/-- ROM `E0 9E` (EX9E with X = 0) with every register holding 0xFF and the
keypad model returning a pressed key exactly at the out-of-range cell 255,
standing for whatever byte sits past the end of `bool keypad[16]`. -/
def c1st : Chip8 :=
  { base with ram := rom2 0xE0 0x9E, V := fun _ => 255,
              keypad := fun k => decide (k = 255) }

/-- ROM `00 EE`: a return executed with the stack empty. -/
def c2st : Chip8 :=
  { base with ram := rom2 0x00 0xEE }

/-- ROM `80 16` (8XY6 with X = 0, Y = 1) with V0 = 0, V1 = 3: the
shift-quirk example of the spec. -/
def c3st : Chip8 :=
  { base with ram := rom2 0x80 0x16, V := fun i => if i = 1 then 3 else 0 }

/-- ROM `F2 55` (dump V0..V2) with I = 0x300 and V_i = 10 + i. -/
def c4wst : Chip8 :=
  { base with ram := rom2 0xF2 0x55, I := 0x300, V := fun i => 10 + i }

/-- ROM `81 24` (8XY4 with X = 1, Y = 2) with V1 = 200, V2 = 100: the add
overflows, so VF must become 1 and V1 must wrap to 44. -/
def c5wst : Chip8 :=
  { base with ram := rom2 0x81 0x24,
              V := fun i => if i = 1 then 200 else if i = 2 then 100 else 0 }

/-- ROM `12 01`: a jump to the odd address 0x201. -/
def c6st : Chip8 :=
  { base with ram := rom2 0x12 0x01 }

/-- ROM `22 22`: a subroutine call to 0x222. -/
def c6wst : Chip8 :=
  { base with ram := rom2 0x22 0x22 }

/-- ROM `D0 11 D0 11` (the same 1-row draw of sprite byte 0x80 at
(V0, V1) = (0, 0) twice in a row) with the sprite byte at I = 0x300. -/
def c7st : Chip8 :=
  { base with
      ram := fun a =>
        if a = 0x200 then 0xD0 else if a = 0x201 then 0x11
        else if a = 0x202 then 0xD0 else if a = 0x203 then 0x11
        else if a = 0x300 then 0x80 else 0,
      I := 0x300 }

/-- ROM `7F 01` (7XNN with X = 0xF): the immediate add targets VF. -/
def c8st : Chip8 :=
  { base with ram := rom2 0x7F 0x01 }

/-- ROM `72 07` (7XNN with X = 2, NN = 7) with V2 = 5. -/
def c8wst : Chip8 :=
  { base with ram := rom2 0x72 0x07, V := fun i => if i = 2 then 5 else 9 }

/-- ROM `51 21` (a 5XYN word with low nibble 1) with V1 = V2 = 0. -/
def c9st : Chip8 :=
  { base with ram := rom2 0x51 0x21 }

/-- ROM `F3 0A` (key-wait into V3) in the state where key 7 was observed
pressed on an earlier step (`key = 7`, `any_key_pressed = true`) and the
keypad now reports it released: the capture completes. -/
def c10wst : Chip8 :=
  { base with ram := rom2 0xF3 0x0A, key := 7, anyKeyPressed := true }

/-! ### Helper lemmas about the FX0A scan and FX55/FX65 loops -/

theorem findPressed_lt (kp : Nat → Bool) :
    ∀ n i j, findPressed kp i n = some j → j < i + n := by
  intro n
  induction n with
  | zero => intro i j h; simp [findPressed] at h
  | succ n ih =>
    intro i j h
    unfold findPressed at h
    by_cases hk : kp i
    · simp [hk] at h; omega
    · simp [hk] at h
      have := ih (i + 1) j h
      omega

theorem dumpLoop_chip8 (V : Nat → Nat) :
    ∀ fuel i I ram, I + fuel < 65536 →
      (dumpLoop Extension.CHIP8 V i fuel I ram).2 = I + fuel ∧
      ∀ a, (dumpLoop Extension.CHIP8 V i fuel I ram).1 a =
        if I ≤ a ∧ a < I + fuel then V (i + (a - I)) else ram a := by
  intro fuel
  induction fuel with
  | zero =>
    intro i I ram _
    refine ⟨rfl, fun a => ?_⟩
    rw [if_neg (by omega)]
    rfl
  | succ n ih =>
    intro i I ram hI
    have hI1 : (I + 1) % 65536 = I + 1 := Nat.mod_eq_of_lt (by omega)
    have step : dumpLoop Extension.CHIP8 V i (n + 1) I ram
        = dumpLoop Extension.CHIP8 V (i + 1) n ((I + 1) % 65536)
            (upd ram I (V i)) := rfl
    rw [step, hI1]
    obtain ⟨h2, h1⟩ := ih (i + 1) (I + 1) (upd ram I (V i)) (by omega)
    refine ⟨by rw [h2]; omega, fun a => ?_⟩
    rw [h1 a]
    by_cases ha : a = I
    · subst ha
      rw [if_neg (by omega), if_pos (by omega), upd, if_pos rfl]
      congr 1
      omega
    · by_cases hin : I + 1 ≤ a ∧ a < I + 1 + n
      · rw [if_pos hin, if_pos (by omega)]
        congr 1
        omega
      · rw [if_neg hin, if_neg (by omega), upd, if_neg ha]

theorem dumpLoop_modern (ext : Extension) (hext : ext ≠ Extension.CHIP8)
    (V : Nat → Nat) :
    ∀ fuel i I ram,
      (dumpLoop ext V i fuel I ram).2 = I ∧
      ∀ a, (dumpLoop ext V i fuel I ram).1 a =
        if I + i ≤ a ∧ a < I + i + fuel then V (a - I) else ram a := by
  intro fuel
  induction fuel with
  | zero =>
    intro i I ram
    refine ⟨rfl, fun a => ?_⟩
    rw [if_neg (by omega)]
    rfl
  | succ n ih =>
    intro i I ram
    have step : dumpLoop ext V i (n + 1) I ram
        = if ext = Extension.CHIP8 then
            dumpLoop ext V (i + 1) n ((I + 1) % 65536) (upd ram I (V i))
          else dumpLoop ext V (i + 1) n I (upd ram (I + i) (V i)) := rfl
    rw [step, if_neg hext]
    obtain ⟨h2, h1⟩ := ih (i + 1) I (upd ram (I + i) (V i))
    refine ⟨h2, fun a => ?_⟩
    rw [h1 a]
    by_cases ha : a = I + i
    · subst ha
      rw [if_neg (by omega), if_pos (by omega), upd, if_pos rfl]
      congr 1
      omega
    · by_cases hin : I + (i + 1) ≤ a ∧ a < I + (i + 1) + n
      · rw [if_pos hin, if_pos (by omega)]
      · rw [if_neg hin, if_neg (by omega), upd, if_neg ha]

theorem loadLoop_chip8 (ram : Nat → Nat) :
    ∀ fuel i I V, I + fuel < 65536 →
      (loadLoop Extension.CHIP8 ram i fuel I V).2 = I + fuel ∧
      ∀ j, (loadLoop Extension.CHIP8 ram i fuel I V).1 j =
        if i ≤ j ∧ j < i + fuel then ram (I + (j - i)) else V j := by
  intro fuel
  induction fuel with
  | zero =>
    intro i I V _
    refine ⟨rfl, fun j => ?_⟩
    rw [if_neg (by omega)]
    rfl
  | succ n ih =>
    intro i I V hI
    have hI1 : (I + 1) % 65536 = I + 1 := Nat.mod_eq_of_lt (by omega)
    have step : loadLoop Extension.CHIP8 ram i (n + 1) I V
        = loadLoop Extension.CHIP8 ram (i + 1) n ((I + 1) % 65536)
            (upd V i (ram I)) := rfl
    rw [step, hI1]
    obtain ⟨h2, h1⟩ := ih (i + 1) (I + 1) (upd V i (ram I)) (by omega)
    refine ⟨by rw [h2]; omega, fun j => ?_⟩
    rw [h1 j]
    by_cases hj : j = i
    · subst hj
      rw [if_neg (by omega), if_pos (by omega), upd, if_pos rfl]
      congr 1
      omega
    · by_cases hin : i + 1 ≤ j ∧ j < i + 1 + n
      · rw [if_pos hin, if_pos (by omega)]
        congr 1
        omega
      · rw [if_neg hin, if_neg (by omega), upd, if_neg hj]

theorem loadLoop_modern (ext : Extension) (hext : ext ≠ Extension.CHIP8)
    (ram : Nat → Nat) :
    ∀ fuel i I V,
      (loadLoop ext ram i fuel I V).2 = I ∧
      ∀ j, (loadLoop ext ram i fuel I V).1 j =
        if i ≤ j ∧ j < i + fuel then ram (I + j) else V j := by
  intro fuel
  induction fuel with
  | zero =>
    intro i I V
    refine ⟨rfl, fun j => ?_⟩
    rw [if_neg (by omega)]
    rfl
  | succ n ih =>
    intro i I V
    have step : loadLoop ext ram i (n + 1) I V
        = if ext = Extension.CHIP8 then
            loadLoop ext ram (i + 1) n ((I + 1) % 65536) (upd V i (ram I))
          else loadLoop ext ram (i + 1) n I (upd V i (ram (I + i))) := rfl
    rw [step, if_neg hext]
    obtain ⟨h2, h1⟩ := ih (i + 1) I (upd V i (ram (I + i)))
    refine ⟨h2, fun j => ?_⟩
    rw [h1 j]
    by_cases hj : j = i
    · subst hj
      rw [if_neg (by omega), if_pos (by omega), upd, if_pos rfl]
    · by_cases hin : i + 1 ≤ j ∧ j < i + 1 + n
      · rw [if_pos hin, if_pos (by omega)]
      · rw [if_neg hin, if_neg (by omega), upd, if_neg hj]

/-! ### Helper lemmas about the DXYN draw loops -/


theorem drawRow_display (sd Y : Nat) :
    ∀ j X st p, (drawRow sd Y X j st).display p
      = xor (st.display p) (rowMask sd Y X j p) := by
  intro j
  induction j with
  | zero =>
    intro X st p
    unfold drawRow rowMask
    by_cases hx : X + 1 ≥ 64 <;>
      simp only [hx, if_pos, if_neg, ite_true, ite_false, updB] <;>
    · by_cases hp : p = Y * 64 + X
      · simp [hp]
      · simp [hp]
  | succ j' ih =>
    intro X st p
    unfold drawRow rowMask
    by_cases hx : X + 1 ≥ 64
    · simp only [hx, ite_true, updB]
      by_cases hp : p = Y * 64 + X
      · simp [hp]
      · simp [hp]
    · simp only [hx, ite_false]
      rw [ih]
      simp only [updB]
      by_cases hp : p = Y * 64 + X
      · simp [hp, Bool.xor_assoc]
      · simp [hp]



theorem rowHit_congr (sd Y : Nat) (d1 d2 : Nat → Bool) :
    ∀ j X, (∀ X', X ≤ X' → d1 (Y * 64 + X') = d2 (Y * 64 + X')) →
      rowHit sd Y d1 X j = rowHit sd Y d2 X j := by
  intro j
  induction j with
  | zero =>
    intro X h
    unfold rowHit
    rw [h X le_rfl]
  | succ j' ih =>
    intro X h
    unfold rowHit
    rw [h X le_rfl]
    by_cases hx : X + 1 ≥ 64
    · simp [hx]
    · simp only [hx, ite_false]
      rw [ih (X + 1) fun X' hX' => h X' (by omega)]

theorem drawRow_vf (sd Y : Nat) :
    ∀ j X st, (drawRow sd Y X j st).vf
      = (st.vf || rowHit sd Y st.display X j) := by
  intro j
  induction j with
  | zero =>
    intro X st
    unfold drawRow rowHit
    by_cases hx : X + 1 ≥ 64 <;> simp [hx]
  | succ j' ih =>
    intro X st
    unfold drawRow rowHit
    by_cases hx : X + 1 ≥ 64
    · simp [hx]
    · simp only [hx, ite_false]
      rw [ih]
      have hd : rowHit sd Y
          (updB st.display (Y * 64 + X)
            (xor (st.display (Y * 64 + X))
              (decide (sd / 2 ^ (j' + 1) % 2 = 1)))) (X + 1) j'
          = rowHit sd Y st.display (X + 1) j' := by
        apply rowHit_congr
        intro X' hX'
        simp only [updB]
        rw [if_neg (by omega)]
      rw [hd]
      simp [Bool.or_assoc]

theorem rowMask_support (sd Y : Nat) :
    ∀ j X p, X < 64 → rowMask sd Y X j p = true →
      ∃ X', X ≤ X' ∧ X' < 64 ∧ p = Y * 64 + X' := by
  intro j
  induction j with
  | zero =>
    intro X p hX h
    unfold rowMask at h
    by_cases hx : X + 1 ≥ 64 <;> simp [hx] at h <;>
      exact ⟨X, le_rfl, hX, h.1⟩
  | succ j' ih =>
    intro X p hX h
    unfold rowMask at h
    by_cases hx : X + 1 ≥ 64
    · simp [hx] at h
      exact ⟨X, le_rfl, hX, h.1⟩
    · simp only [hx, ite_false] at h
      cases ha : (decide (p = Y * 64 + X) && decide (sd / 2 ^ (j' + 1) % 2 = 1))
      · rw [ha] at h
        simp only [Bool.false_xor] at h
        obtain ⟨X', h1, h2, h3⟩ := ih (X + 1) p (by omega) h
        exact ⟨X', by omega, h2, h3⟩
      · simp at ha
        exact ⟨X, le_rfl, hX, ha.1⟩



theorem rowHit_iff (sd Y : Nat) (d : Nat → Bool) :
    ∀ j X, X < 64 →
      (rowHit sd Y d X j = true ↔
        ∃ p, rowMask sd Y X j p = true ∧ d p = true) := by
  intro j
  induction j with
  | zero =>
    intro X hX
    unfold rowHit rowMask
    simp only [pow_zero, Nat.div_one]
    by_cases hx : X + 1 ≥ 64 <;> simp only [hx, ite_true, ite_false] <;>
    · constructor
      · intro h
        simp only [Bool.and_eq_true, decide_eq_true_eq] at h
        exact ⟨Y * 64 + X, by simp [h.1], h.2⟩
      · rintro ⟨p, hm, hd⟩
        simp only [Bool.and_eq_true, decide_eq_true_eq] at hm
        rw [hm.1] at hd
        simp [hm.2, hd]
  | succ j' ih =>
    intro X hX
    unfold rowHit rowMask
    by_cases hx : X + 1 ≥ 64
    · simp only [hx, ite_true]
      constructor
      · intro h
        simp only [Bool.and_eq_true, decide_eq_true_eq] at h
        exact ⟨Y * 64 + X, by simp [h.1], h.2⟩
      · rintro ⟨p, hm, hd⟩
        simp only [Bool.and_eq_true, decide_eq_true_eq] at hm
        rw [hm.1] at hd
        simp [hm.2, hd]
    · simp only [hx, ite_false]
      constructor
      · intro h
        rcases Bool.or_eq_true_iff.mp h with hhere | hrest
        · simp only [Bool.and_eq_true, decide_eq_true_eq] at hhere
          refine ⟨Y * 64 + X, ?_, hhere.2⟩
          have hrm : rowMask sd Y (X + 1) j' (Y * 64 + X) = false := by
            cases hr : rowMask sd Y (X + 1) j' (Y * 64 + X)
            · rfl
            · obtain ⟨X', h1, _, h3⟩ :=
                rowMask_support sd Y j' (X + 1) (Y * 64 + X) (by omega) hr
              omega
          rw [hrm]
          simp [hhere.1]
        · obtain ⟨p, hm, hd⟩ := (ih (X + 1) (by omega)).mp hrest
          refine ⟨p, ?_, hd⟩
          obtain ⟨X', h1, _, h3⟩ :=
            rowMask_support sd Y j' (X + 1) p (by omega) hm
          have hne : ¬ p = Y * 64 + X := by omega
          simp [hne, hm]
      · rintro ⟨p, hm, hd⟩
        by_cases hp : p = Y * 64 + X
        · subst hp
          have hrm : rowMask sd Y (X + 1) j' (Y * 64 + X) = false := by
            cases hr : rowMask sd Y (X + 1) j' (Y * 64 + X)
            · rfl
            · obtain ⟨X', h1, _, h3⟩ :=
                rowMask_support sd Y j' (X + 1) (Y * 64 + X) (by omega) hr
              omega
          rw [hrm] at hm
          simp only [Bool.xor_false] at hm
          simp only [Bool.and_eq_true, decide_eq_true_eq] at hm
          simp [hm, hd]
        · have hh : (decide (p = Y * 64 + X) &&
              decide (sd / 2 ^ (j' + 1) % 2 = 1)) = false := by
            simp [hp]
          rw [hh] at hm
          simp only [Bool.false_xor] at hm
          have := (ih (X + 1) (by omega)).mpr ⟨p, hm, hd⟩
          simp [this]



theorem rowMask_div (sd Y : Nat) {j X p : Nat} (hX : X < 64)
    (h : rowMask sd Y X j p = true) : p / 64 = Y := by
  obtain ⟨X', _, h2, h3⟩ := rowMask_support sd Y j X p hX h
  omega

theorem spriteMask_div {ox : Nat} (hox : ox < 64) :
    ∀ rows Y p, spriteMask ox rows Y p = true → Y ≤ p / 64 := by
  intro rows
  induction rows with
  | nil => intro Y p h; simp [spriteMask] at h
  | cons sd rest ih =>
    intro Y p h
    unfold spriteMask at h
    cases hr : rowMask sd Y ox 7 p
    · rw [hr] at h
      simp only [Bool.false_xor] at h
      by_cases hy : Y + 1 ≥ 32
      · rw [if_pos hy] at h; simp at h
      · rw [if_neg hy] at h
        have := ih (Y + 1) p h
        omega
    · have := rowMask_div sd Y hox hr
      omega

theorem spriteHit_congr {ox : Nat} (d1 d2 : Nat → Bool) :
    ∀ rows Y, (∀ p, Y ≤ p / 64 → d1 p = d2 p) →
      spriteHit ox d1 rows Y = spriteHit ox d2 rows Y := by
  intro rows
  induction rows with
  | nil => intro Y _; rfl
  | cons sd rest ih =>
    intro Y h
    unfold spriteHit
    have h1 : rowHit sd Y d1 ox 7 = rowHit sd Y d2 ox 7 := by
      apply rowHit_congr
      intro X' _
      exact h (Y * 64 + X') (by omega)
    rw [h1]
    by_cases hy : Y + 1 ≥ 32
    · simp [hy]
    · rw [if_neg hy, if_neg hy, ih (Y + 1) fun p hp => h p (by omega)]

theorem drawRows_display (ox : Nat) :
    ∀ rows Y st p, (drawRows ox rows Y st).display p
      = xor (st.display p) (spriteMask ox rows Y p) := by
  intro rows
  induction rows with
  | nil => intro Y st p; simp [drawRows, spriteMask]
  | cons sd rest ih =>
    intro Y st p
    unfold drawRows spriteMask
    by_cases hy : Y + 1 ≥ 32
    · rw [if_pos hy, if_pos hy, drawRow_display]
      simp
    · rw [if_neg hy, if_neg hy, ih, drawRow_display, Bool.xor_assoc]

theorem drawRows_vf {ox : Nat} (hox : ox < 64) :
    ∀ rows Y st, (drawRows ox rows Y st).vf
      = (st.vf || spriteHit ox st.display rows Y) := by
  intro rows
  induction rows with
  | nil => intro Y st; simp [drawRows, spriteHit]
  | cons sd rest ih =>
    intro Y st
    unfold drawRows spriteHit
    by_cases hy : Y + 1 ≥ 32
    · rw [if_pos hy, if_pos hy, drawRow_vf]
      simp
    · rw [if_neg hy, if_neg hy, ih, drawRow_vf]
      have hc : spriteHit ox (drawRow sd Y ox 7 st).display rest (Y + 1)
          = spriteHit ox st.display rest (Y + 1) := by
        apply spriteHit_congr
        intro p hp
        rw [drawRow_display]
        cases hr : rowMask sd Y ox 7 p
        · simp
        · have := rowMask_div sd Y hox hr
          omega
      rw [hc, Bool.or_assoc]

theorem spriteHit_iff {ox : Nat} (hox : ox < 64) (d : Nat → Bool) :
    ∀ rows Y, (spriteHit ox d rows Y = true ↔
      ∃ p, spriteMask ox rows Y p = true ∧ d p = true) := by
  intro rows
  induction rows with
  | nil => intro Y; simp [spriteHit, spriteMask]
  | cons sd rest ih =>
    intro Y
    unfold spriteHit spriteMask
    by_cases hy : Y + 1 ≥ 32
    · simp only [if_pos hy, Bool.or_false, Bool.xor_false]
      exact rowHit_iff sd Y d 7 ox hox
    · simp only [if_neg hy]
      constructor
      · intro h
        rcases Bool.or_eq_true_iff.mp h with hrow | hrec
        · obtain ⟨p, hm, hd⟩ := (rowHit_iff sd Y d 7 ox hox).mp hrow
          refine ⟨p, ?_, hd⟩
          have hrec0 : spriteMask ox rest (Y + 1) p = false := by
            cases hr : spriteMask ox rest (Y + 1) p
            · rfl
            · have h1 := spriteMask_div hox rest (Y + 1) p hr
              have h2 := rowMask_div sd Y hox hm
              omega
          rw [hrec0, hm]
          rfl
        · obtain ⟨p, hm, hd⟩ := (ih (Y + 1)).mp hrec
          refine ⟨p, ?_, hd⟩
          have hrow0 : rowMask sd Y ox 7 p = false := by
            cases hr : rowMask sd Y ox 7 p
            · rfl
            · have h1 := spriteMask_div hox rest (Y + 1) p hm
              have h2 := rowMask_div sd Y hox hr
              omega
          rw [hrow0, hm]
          rfl
      · rintro ⟨p, hm, hd⟩
        cases hr : rowMask sd Y ox 7 p
        · rw [hr] at hm
          simp only [Bool.false_xor] at hm
          have := (ih (Y + 1)).mpr ⟨p, hm, hd⟩
          simp [this]
        · have hrec0 : spriteMask ox rest (Y + 1) p = false := by
            cases hc : spriteMask ox rest (Y + 1) p
            · rfl
            · have h1 := spriteMask_div hox rest (Y + 1) p hc
              have h2 := rowMask_div sd Y hox hr
              omega
          rw [hr, hrec0] at hm
          have := (rowHit_iff sd Y d 7 ox hox).mpr ⟨p, hr, hd⟩
          simp [this]


/-! ### Claims -/

/-- Claim C1 (code bug): the keypad index used by EX9E is the raw register
content `V[X]` with no range check: on ROM `E0 9E` with `V0 = 0xFF` the
code reads `keypad[255]`, far outside the 16-entry keypad, and the skip
decision (PC advancing to 0x204) is driven by that out-of-range cell. -/
theorem C1_unchecked_keypad_index :
    keyIdx (fetchWord c1st) c1st = 255 ∧
    ¬ keyIdx (fetchWord c1st) c1st < 16 ∧
    (emulate_instruction Extension.CHIP8 0 c1st).PC = 0x204 := by
  refine ⟨by decide, by decide, by decide⟩

/-- Claim C2 (code bug): executing 00EE with the stack empty decrements the
stack pointer below the array (`stackPtr` ends one element before
`&stack[0]`, offset -1) and reads through it, instead of any deterministic
fault handling; the reachable state after one step violates the claimed
stack-pointer invariant. -/
theorem C2_stack_underflow :
    c2st.sp = 0 ∧
    (emulate_instruction Extension.CHIP8 0 c2st).sp = -1 ∧
    ¬ (0 : Int) ≤ (emulate_instruction Extension.CHIP8 0 c2st).sp := by
  refine ⟨rfl, by decide, by decide⟩

/-- Claim C3 counterexample: the spec example claims `8016` with VX = 0x00,
VY = 0x03 yields VX = 0x01 under ExtendedArchitecture; the code shifts VX
itself, so VX stays 0x00 (and VF = 0). -/
theorem C3_counterexample :
    (emulate_instruction Extension.SUPERCHIP 0 c3st).V 0 ≠ 1 ∧
    (emulate_instruction Extension.SUPERCHIP 0 c3st).V 0 = 0 ∧
    (emulate_instruction Extension.SUPERCHIP 0 c3st).V 15 = 0 := by
  refine ⟨by decide, by decide, by decide⟩

/-- Claim C6 counterexample: `1201` jumps to the odd address 0x201, so at
the very next step the post-fetch PC is 0x203, which is not even-aligned —
the code never enforces alignment of jump targets. -/
theorem C6_counterexample :
    (emulate_instruction Extension.CHIP8 0 c6st).PC = 0x201 ∧
    postFetchPC (emulate_instruction Extension.CHIP8 0 c6st) = 0x203 ∧
    ¬ 2 ∣ postFetchPC (emulate_instruction Extension.CHIP8 0 c6st) := by
  refine ⟨by decide, by decide, by decide⟩

set_option maxHeartbeats 2000000 in
/-- Claim C7 counterexample: drawing sprite byte 0x80 at (0,0) on a clear
screen twice reports NO collision on the first draw (VF = 0) and reports
the collision on the second draw (VF = 1), while the double draw restores
the framebuffer (pixel 0 is false again) — so VF does not "reflect
collision on the first draw" on a previously clear region. -/
theorem C7_counterexample :
    (emulate_instruction Extension.CHIP8 0 c7st).V 15 = 0 ∧
    (emulate_instruction Extension.CHIP8 0
      (emulate_instruction Extension.CHIP8 0 c7st)).V 15 = 1 ∧
    (emulate_instruction Extension.CHIP8 0
      (emulate_instruction Extension.CHIP8 0 c7st)).display 0 = false := by
  refine ⟨by decide, by decide, by decide⟩

/-- Claim C8 counterexample: `7F01` (7XNN with X = 0xF) changes VF from 0
to 1, so 7XNN does not leave VF unaffected for every X. -/
theorem C8_counterexample :
    c8st.V 15 = 0 ∧
    (emulate_instruction Extension.CHIP8 0 c8st).V 15 = 1 := by
  refine ⟨rfl, by decide⟩

/-- Claim C9 counterexample: the word `5121` (low nibble 1, so it matches
no opcode-table entry per the claim) is dispatched as a 5XY0 skip: with
V1 = V2 the PC advances by 4, not by the claimed 2. -/
theorem C9_counterexample :
    (emulate_instruction Extension.CHIP8 0 c9st).PC = 0x204 ∧
    (c9st.PC + 2) % 65536 = 0x202 := by
  refine ⟨by decide, by decide⟩


/-- Claim C8 (amended): 7XNN sets VX to (VX + NN) mod 256 and writes no
other register, so for X different from 0xF the VF register keeps its prior
value; when X = 0xF the immediate add itself targets VF (no separate carry
flag is ever written). -/
theorem C8_add_imm (ext : Extension) (rnd : Nat) (st : Chip8) (X NN : Nat)
    (hX : X < 16) (hNN : NN < 256)
    (hb0 : st.ram st.PC = 0x70 + X) (hb1 : st.ram (st.PC + 1) = NN) :
    (emulate_instruction ext rnd st).V X = (st.V X + NN) % 256 ∧
    (∀ j, j ≠ X → (emulate_instruction ext rnd st).V j = st.V j) ∧
    (emulate_instruction ext rnd st).PC = (st.PC + 2) % 65536 ∧
    (emulate_instruction ext rnd st).I = st.I ∧
    (emulate_instruction ext rnd st).ram = st.ram ∧
    (emulate_instruction ext rnd st).display = st.display ∧
    (emulate_instruction ext rnd st).sp = st.sp := by
  have hw : fetchWord st = (0x70 + X) * 256 + NN := by
    simp [fetchWord, hb0, hb1]
  unfold emulate_instruction
  rw [hw]
  unfold execInst postFetchPC
  have h1 : ((0x70 + X) * 256 + NN) / 4096 % 16 = 7 := by omega
  have h2 : ((0x70 + X) * 256 + NN) / 256 % 16 = X := by omega
  have h3 : ((0x70 + X) * 256 + NN) % 256 = NN := by omega
  simp only [h1, h2, h3]
  norm_num
  exact ⟨by simp [upd], fun j hj => by simp [upd, hj]⟩

/-- Witness for C8_add_imm at ROM `72 07` with V2 = 5. -/
theorem C8_add_imm_witness :
    (emulate_instruction Extension.CHIP8 0 c8wst).V 2 = 12 ∧
    (emulate_instruction Extension.CHIP8 0 c8wst).V 15 = c8wst.V 15 := by
  have h := C8_add_imm Extension.CHIP8 0 c8wst 2 7
    (by decide) (by decide) (by decide) (by decide)
  refine ⟨?_, h.2.1 15 (by decide)⟩
  rw [h.1]
  decide

/-- Claim C9 (amended): every instruction word that matches no entry of
the dispatch (undefined 0NNN / 8XYN / EXNN / FXNN secondary keys) is a
no-op with the sole effect of the ordinary PC advance by 2 — except that
5XYN and 9XYN are dispatched on the top nibble alone and behave as
5XY0/9XY0 for every low nibble N (see C9_counterexample). -/
theorem C9_no_op (ext : Extension) (rnd : Nat) (st : Chip8)
    (h : UnmatchedOp (fetchWord st)) :
    emulate_instruction ext rnd st = { st with PC := (st.PC + 2) % 65536 } := by
  unfold emulate_instruction execInst postFetchPC
  rcases h with ⟨h1, h2, h3⟩ | ⟨h1, h2, h3⟩ | ⟨h1, h2, h3⟩ |
    ⟨h1, h2, h3, h4, h5, h6, h7, h8, h9, h10⟩
  · simp [h1, h2, h3]
  · have c0 : fetchWord st % 16 ≠ 0 := by omega
    have c1 : fetchWord st % 16 ≠ 1 := by omega
    have c2 : fetchWord st % 16 ≠ 2 := by omega
    have c3 : fetchWord st % 16 ≠ 3 := by omega
    have c4 : fetchWord st % 16 ≠ 4 := by omega
    have c5 : fetchWord st % 16 ≠ 5 := by omega
    have c6 : fetchWord st % 16 ≠ 6 := by omega
    have c7 : fetchWord st % 16 ≠ 7 := by omega
    simp [h1, c0, c1, c2, c3, c4, c5, c6, c7, h3]
  · simp [h1, h2, h3]
  · simp [h1, h2, h3, h4, h5, h6, h7, h8, h9, h10]

/-- Witness for C9_no_op: the all-zero word 0x0000 is a pure PC+2 step. -/
theorem C9_no_op_witness :
    emulate_instruction Extension.CHIP8 0 base
      = { base with PC := (base.PC + 2) % 65536 } :=
  C9_no_op Extension.CHIP8 0 base (Or.inl (by decide))



/-- Claim C3 (amended): 8XY6/8XYE read their source register per the
Extension Policy: under BaseArchitecture VX receives VY shifted by one and
VF the bit shifted out of VY before the shift, while under
ExtendedArchitecture the shift reads and writes VX with VF the bit shifted
out of VX — so `8016` with VX = 0x00, VY = 0x03 yields VX = 0x00, VF = 0
under ExtendedArchitecture (not VX = 0x01 as the spec example says), and
VX = 0x01, VF = 1 under BaseArchitecture. -/
theorem C3_shift (ext : Extension) (rnd : Nat) (st : Chip8) (X Y n : Nat)
    (hX : X < 16) (hY : Y < 16) (hn : n = 6 ∨ n = 14)
    (hb0 : st.ram st.PC = 0x80 + X) (hb1 : st.ram (st.PC + 1) = Y * 16 + n) :
    (ext = Extension.CHIP8 →
      (X ≠ 15 → (emulate_instruction ext rnd st).V X =
        (if n = 6 then st.V Y / 2 else st.V Y * 2 % 256)) ∧
      (emulate_instruction ext rnd st).V 15 =
        (if n = 6 then st.V Y % 2 else st.V Y / 128 % 2)) ∧
    (ext ≠ Extension.CHIP8 →
      (X ≠ 15 → (emulate_instruction ext rnd st).V X =
        (if n = 6 then st.V X / 2 else st.V X * 2 % 256)) ∧
      (emulate_instruction ext rnd st).V 15 =
        (if n = 6 then st.V X % 2 else st.V X / 128 % 2)) := by
  have hw : fetchWord st = (0x80 + X) * 256 + (Y * 16 + n) := by
    simp [fetchWord, hb0, hb1]
  unfold emulate_instruction
  rw [hw]
  unfold execInst postFetchPC
  rcases hn with hn | hn <;> subst hn
  · have h1 : ((0x80 + X) * 256 + (Y * 16 + 6)) / 4096 % 16 = 8 := by omega
    have h2 : ((0x80 + X) * 256 + (Y * 16 + 6)) / 256 % 16 = X := by omega
    have h3 : ((0x80 + X) * 256 + (Y * 16 + 6)) % 16 = 6 := by omega
    have h4 : ((0x80 + X) * 256 + (Y * 16 + 6)) / 16 % 16 = Y := by omega
    simp only [h1, h2, h3, h4]
    norm_num
    constructor
    · intro hext
      subst hext
      norm_num
      exact ⟨fun hXF => by simp [upd, hXF], by simp [upd]⟩
    · intro hext
      simp only [if_neg hext]
      exact ⟨fun hXF => by simp [upd, hXF], by simp [upd]⟩
  · have h1 : ((0x80 + X) * 256 + (Y * 16 + 14)) / 4096 % 16 = 8 := by omega
    have h2 : ((0x80 + X) * 256 + (Y * 16 + 14)) / 256 % 16 = X := by omega
    have h3 : ((0x80 + X) * 256 + (Y * 16 + 14)) % 16 = 14 := by omega
    have h4 : ((0x80 + X) * 256 + (Y * 16 + 14)) / 16 % 16 = Y := by omega
    simp only [h1, h2, h3, h4]
    norm_num
    constructor
    · intro hext
      subst hext
      norm_num
      exact ⟨fun hXF => by simp [upd, hXF], by simp [upd]⟩
    · intro hext
      simp only [if_neg hext]
      exact ⟨fun hXF => by simp [upd, hXF], by simp [upd]⟩



/-- Witness for C3_shift: the spec's concrete BaseArchitecture check —
`8016` with VY = 0b00000011 makes VX = 0b00000001 and VF = 1. -/
theorem C3_shift_witness :
    (emulate_instruction Extension.CHIP8 0 c3st).V 0 = 1 ∧
    (emulate_instruction Extension.CHIP8 0 c3st).V 15 = 1 := by
  have h := (C3_shift Extension.CHIP8 0 c3st 0 1 6 (by decide) (by decide)
    (Or.inl rfl) (by decide) (by decide)).1 rfl
  refine ⟨?_, ?_⟩
  · rw [h.1 (by decide)]
    decide
  · rw [h.2]
    decide

/-- Claim C5: for every 8XY4/8XY5/8XY7/8XY6/8XYE and all register choices
X, Y (including 0xF), the final VF equals the carry/borrow/shifted-out-bit
function of the PRE-operation register values, and the flag write lands
after the arithmetic store (visible at X = 0xF, where VF holds the flag,
not the arithmetic result). -/
theorem C5_alu_flags (ext : Extension) (rnd : Nat) (st : Chip8) (X Y n : Nat)
    (hX : X < 16) (hY : Y < 16) (hn : n < 16)
    (hb0 : st.ram st.PC = 0x80 + X) (hb1 : st.ram (st.PC + 1) = Y * 16 + n) :
    (n = 4 →
      (emulate_instruction ext rnd st).V 15 =
        (if st.V X + st.V Y > 255 then 1 else 0) ∧
      (X ≠ 15 →
        (emulate_instruction ext rnd st).V X = (st.V X + st.V Y) % 256)) ∧
    (n = 5 →
      (emulate_instruction ext rnd st).V 15 =
        (if st.V X ≥ st.V Y then 1 else 0) ∧
      (X ≠ 15 →
        (emulate_instruction ext rnd st).V X = (st.V X + 256 - st.V Y) % 256)) ∧
    (n = 7 →
      (emulate_instruction ext rnd st).V 15 =
        (if st.V X ≤ st.V Y then 1 else 0) ∧
      (X ≠ 15 →
        (emulate_instruction ext rnd st).V X = (st.V Y + 256 - st.V X) % 256)) ∧
    (n = 6 →
      (emulate_instruction ext rnd st).V 15 =
        (if ext = Extension.CHIP8 then st.V Y % 2 else st.V X % 2)) ∧
    (n = 14 →
      (emulate_instruction ext rnd st).V 15 =
        (if ext = Extension.CHIP8 then st.V Y / 128 % 2 else st.V X / 128 % 2)) := by
  have hw : fetchWord st = (0x80 + X) * 256 + (Y * 16 + n) := by
    simp [fetchWord, hb0, hb1]
  unfold emulate_instruction
  rw [hw]
  unfold execInst postFetchPC
  refine ⟨?_, ?_, ?_, ?_, ?_⟩ <;> intro hn' <;> subst hn'
  · have h1 : ((0x80 + X) * 256 + (Y * 16 + 4)) / 4096 % 16 = 8 := by omega
    have h2 : ((0x80 + X) * 256 + (Y * 16 + 4)) / 256 % 16 = X := by omega
    have h3 : ((0x80 + X) * 256 + (Y * 16 + 4)) % 16 = 4 := by omega
    have h4 : ((0x80 + X) * 256 + (Y * 16 + 4)) / 16 % 16 = Y := by omega
    simp only [h1, h2, h3, h4]
    norm_num
    exact ⟨by simp [upd], fun hXF => by simp [upd, hXF]⟩
  · have h1 : ((0x80 + X) * 256 + (Y * 16 + 5)) / 4096 % 16 = 8 := by omega
    have h2 : ((0x80 + X) * 256 + (Y * 16 + 5)) / 256 % 16 = X := by omega
    have h3 : ((0x80 + X) * 256 + (Y * 16 + 5)) % 16 = 5 := by omega
    have h4 : ((0x80 + X) * 256 + (Y * 16 + 5)) / 16 % 16 = Y := by omega
    simp only [h1, h2, h3, h4]
    norm_num
    exact ⟨by simp [upd], fun hXF => by simp [upd, hXF]⟩
  · have h1 : ((0x80 + X) * 256 + (Y * 16 + 7)) / 4096 % 16 = 8 := by omega
    have h2 : ((0x80 + X) * 256 + (Y * 16 + 7)) / 256 % 16 = X := by omega
    have h3 : ((0x80 + X) * 256 + (Y * 16 + 7)) % 16 = 7 := by omega
    have h4 : ((0x80 + X) * 256 + (Y * 16 + 7)) / 16 % 16 = Y := by omega
    simp only [h1, h2, h3, h4]
    norm_num
    exact ⟨by simp [upd], fun hXF => by simp [upd, hXF]⟩
  · have h1 : ((0x80 + X) * 256 + (Y * 16 + 6)) / 4096 % 16 = 8 := by omega
    have h2 : ((0x80 + X) * 256 + (Y * 16 + 6)) / 256 % 16 = X := by omega
    have h3 : ((0x80 + X) * 256 + (Y * 16 + 6)) % 16 = 6 := by omega
    have h4 : ((0x80 + X) * 256 + (Y * 16 + 6)) / 16 % 16 = Y := by omega
    simp only [h1, h2, h3, h4]
    norm_num
    by_cases hext : ext = Extension.CHIP8 <;> simp [hext, upd]
  · have h1 : ((0x80 + X) * 256 + (Y * 16 + 14)) / 4096 % 16 = 8 := by omega
    have h2 : ((0x80 + X) * 256 + (Y * 16 + 14)) / 256 % 16 = X := by omega
    have h3 : ((0x80 + X) * 256 + (Y * 16 + 14)) % 16 = 14 := by omega
    have h4 : ((0x80 + X) * 256 + (Y * 16 + 14)) / 16 % 16 = Y := by omega
    simp only [h1, h2, h3, h4]
    norm_num
    by_cases hext : ext = Extension.CHIP8 <;> simp [hext, upd]

/-- Witness for C5_alu_flags: `8124` with V1 = 200, V2 = 100 overflows,
so VF = 1 and V1 = 44. -/
theorem C5_alu_flags_witness :
    (emulate_instruction Extension.CHIP8 0 c5wst).V 15 = 1 ∧
    (emulate_instruction Extension.CHIP8 0 c5wst).V 1 = 44 := by
  have h := (C5_alu_flags Extension.CHIP8 0 c5wst 1 2 4 (by decide) (by decide)
    (by decide) (by decide) (by decide)).1 rfl
  refine ⟨?_, ?_⟩
  · rw [h.1]
    decide
  · rw [h.2 (by decide)]
    decide

/-- Claim C6 (amended): the PC advances by exactly 2 (mod 2^16) at fetch
before the instruction's own control-flow effects apply: a 2NNN call
pushes the already-advanced PC, 1NNN overrides it with NNN, a
non-control-flow 6XNN leaves it at PC+2, and a 3XNN skip adds a further 2
on top of it (even-alignment and staying inside the 4096-byte region are
NOT guaranteed — see C6_counterexample). -/
theorem C6_pc_advance (ext : Extension) (rnd : Nat) (st : Chip8) :
    (fetchWord st / 4096 % 16 = 2 →
      (emulate_instruction ext rnd st).stack st.sp = (st.PC + 2) % 65536 ∧
      (emulate_instruction ext rnd st).sp = st.sp + 1 ∧
      (emulate_instruction ext rnd st).PC = fetchWord st % 4096) ∧
    (fetchWord st / 4096 % 16 = 1 →
      (emulate_instruction ext rnd st).PC = fetchWord st % 4096) ∧
    (fetchWord st / 4096 % 16 = 6 →
      (emulate_instruction ext rnd st).PC = (st.PC + 2) % 65536) ∧
    (fetchWord st / 4096 % 16 = 3 →
      (emulate_instruction ext rnd st).PC =
        (if st.V (fetchWord st / 256 % 16) = fetchWord st % 256
         then ((st.PC + 2) % 65536 + 2) % 65536
         else (st.PC + 2) % 65536)) := by
  refine ⟨?_, ?_, ?_, ?_⟩ <;> intro h <;>
    unfold emulate_instruction execInst postFetchPC
  · simp [h, updS]
  · simp [h]
  · simp [h]
  · by_cases hv : st.V (fetchWord st / 256 % 16) = fetchWord st % 256 <;>
      simp [h, hv]

/-- Witness for C6_pc_advance: the call `2222` pushes 0x202 and jumps. -/
theorem C6_pc_advance_witness :
    (emulate_instruction Extension.CHIP8 0 c6wst).stack c6wst.sp
      = (c6wst.PC + 2) % 65536 ∧
    (emulate_instruction Extension.CHIP8 0 c6wst).sp = c6wst.sp + 1 ∧
    (emulate_instruction Extension.CHIP8 0 c6wst).PC
      = fetchWord c6wst % 4096 :=
  (C6_pc_advance Extension.CHIP8 0 c6wst).1 (by decide)



/-- Claim C4: FX55 dumps V0..VX to memory at I..I+X and FX65 loads them
back, with BaseArchitecture leaving I = I + X + 1 afterwards and
ExtendedArchitecture leaving I unchanged; in both modes exactly the bytes
V0..VX move between the registers and addresses I..I+X, everything else
untouched (stated on the non-wrapping domain I + X + 1 < 2^16 of the
16-bit index register). -/
theorem C4_reg_dump_load (ext : Extension) (rnd : Nat) (st : Chip8) (X : Nat)
    (hX : X < 16) (hI : st.I + X + 1 < 65536)
    (hb0 : st.ram st.PC = 0xF0 + X) :
    (st.ram (st.PC + 1) = 0x55 →
      (ext = Extension.CHIP8 →
        (emulate_instruction ext rnd st).I = st.I + X + 1) ∧
      (ext ≠ Extension.CHIP8 → (emulate_instruction ext rnd st).I = st.I) ∧
      (∀ a, (emulate_instruction ext rnd st).ram a =
        if st.I ≤ a ∧ a ≤ st.I + X then st.V (a - st.I) else st.ram a) ∧
      (emulate_instruction ext rnd st).V = st.V) ∧
    (st.ram (st.PC + 1) = 0x65 →
      (ext = Extension.CHIP8 →
        (emulate_instruction ext rnd st).I = st.I + X + 1) ∧
      (ext ≠ Extension.CHIP8 → (emulate_instruction ext rnd st).I = st.I) ∧
      (∀ j, (emulate_instruction ext rnd st).V j =
        if j ≤ X then st.ram (st.I + j) else st.V j) ∧
      (emulate_instruction ext rnd st).ram = st.ram) := by
  constructor
  · intro hb1
    have hw : fetchWord st = (0xF0 + X) * 256 + 0x55 := by
      simp [fetchWord, hb0, hb1]
    unfold emulate_instruction
    rw [hw]
    unfold execInst postFetchPC
    have h1 : ((0xF0 + X) * 256 + 0x55) / 4096 % 16 = 15 := by omega
    have h2 : ((0xF0 + X) * 256 + 0x55) / 256 % 16 = X := by omega
    have h3 : ((0xF0 + X) * 256 + 0x55) % 256 = 0x55 := by omega
    simp only [h1, h2, h3]
    norm_num
    refine ⟨?_, ?_, ?_⟩
    · intro hext
      subst hext
      have := (dumpLoop_chip8 st.V (X + 1) 0 st.I st.ram (by omega)).1
      simp only [this]
      omega
    · intro hext
      exact (dumpLoop_modern ext hext st.V (X + 1) 0 st.I st.ram).1
    · intro a
      by_cases hext : ext = Extension.CHIP8
      · subst hext
        have := (dumpLoop_chip8 st.V (X + 1) 0 st.I st.ram (by omega)).2 a
        simp only [this]
        by_cases ha : st.I ≤ a ∧ a ≤ st.I + X
        · rw [if_pos (by omega), if_pos ha]
          simp
        · rw [if_neg (by omega), if_neg ha]
      · have := (dumpLoop_modern ext hext st.V (X + 1) 0 st.I st.ram).2 a
        simp only [this]
        by_cases ha : st.I ≤ a ∧ a ≤ st.I + X
        · rw [if_pos (by omega), if_pos ha]
        · rw [if_neg (by omega), if_neg ha]
  · intro hb1
    have hw : fetchWord st = (0xF0 + X) * 256 + 0x65 := by
      simp [fetchWord, hb0, hb1]
    unfold emulate_instruction
    rw [hw]
    unfold execInst postFetchPC
    have h1 : ((0xF0 + X) * 256 + 0x65) / 4096 % 16 = 15 := by omega
    have h2 : ((0xF0 + X) * 256 + 0x65) / 256 % 16 = X := by omega
    have h3 : ((0xF0 + X) * 256 + 0x65) % 256 = 0x65 := by omega
    simp only [h1, h2, h3]
    norm_num
    refine ⟨?_, ?_, ?_⟩
    · intro hext
      subst hext
      have := (loadLoop_chip8 st.ram (X + 1) 0 st.I st.V (by omega)).1
      simp only [this]
      omega
    · intro hext
      exact (loadLoop_modern ext hext st.ram (X + 1) 0 st.I st.V).1
    · intro j
      by_cases hext : ext = Extension.CHIP8
      · subst hext
        have := (loadLoop_chip8 st.ram (X + 1) 0 st.I st.V (by omega)).2 j
        simp only [this]
        by_cases hj : j ≤ X
        · rw [if_pos (by omega), if_pos hj]
          simp
        · rw [if_neg (by omega), if_neg hj]
      · have := (loadLoop_modern ext hext st.ram (X + 1) 0 st.I st.V).2 j
        simp only [this]
        by_cases hj : j ≤ X
        · rw [if_pos (by omega), if_pos hj]
        · rw [if_neg (by omega), if_neg hj]

/-- Witness for C4_reg_dump_load: `F255` with I = 0x300, V = [10,11,12,..]
ends with I = 0x303, ram[0x301] = 11 and ram[0x303] untouched. -/
theorem C4_reg_dump_load_witness :
    (emulate_instruction Extension.CHIP8 0 c4wst).I = 0x303 ∧
    (emulate_instruction Extension.CHIP8 0 c4wst).ram 0x301 = 11 ∧
    (emulate_instruction Extension.CHIP8 0 c4wst).ram 0x303 = 0 := by
  have h := (C4_reg_dump_load Extension.CHIP8 0 c4wst 2
    (by decide) (by decide) (by decide)).1 (by decide)
  refine ⟨?_, ?_, ?_⟩
  · rw [h.1 rfl]
    decide
  · rw [h.2.2.1 0x301]
    decide
  · rw [h.2.2.1 0x303]
    decide


/-- Claim C10: when FX0A observes no qualifying key event (no key pressed
yet, or the observed key still held), the step rewinds PC by 2 back to the
instruction's own address and leaves registers, I, memory, stack, timers
and framebuffer unchanged; when the capture completes, the value stored in
VX is a key index below 16 and only VX (besides PC) changes among those
components.  (The two C `static` capture-progress locals do change; they
are not among the components the claim enumerates.)  `hInv` is the
invariant of the statics — `any_key_pressed` implies a valid `key` — which
holds initially and is maintained by the handler. -/
theorem C10_keywait (ext : Extension) (rnd : Nat) (st : Chip8) (X : Nat)
    (hX : X < 16) (hPC : st.PC < 65536)
    (hb0 : st.ram st.PC = 0xF0 + X) (hb1 : st.ram (st.PC + 1) = 0x0A)
    (hInv : st.anyKeyPressed = true → st.key < 16) :
    ((fx0aScan st).2 = false ∨ st.keypad (fx0aScan st).1 = true →
      (emulate_instruction ext rnd st).PC = st.PC ∧
      (emulate_instruction ext rnd st).V = st.V ∧
      (emulate_instruction ext rnd st).I = st.I ∧
      (emulate_instruction ext rnd st).ram = st.ram ∧
      (emulate_instruction ext rnd st).stack = st.stack ∧
      (emulate_instruction ext rnd st).sp = st.sp ∧
      (emulate_instruction ext rnd st).delayTimer = st.delayTimer ∧
      (emulate_instruction ext rnd st).soundTimer = st.soundTimer ∧
      (emulate_instruction ext rnd st).display = st.display) ∧
    ((fx0aScan st).2 = true ∧ st.keypad (fx0aScan st).1 = false →
      (emulate_instruction ext rnd st).PC = (st.PC + 2) % 65536 ∧
      (emulate_instruction ext rnd st).V X = (fx0aScan st).1 ∧
      (fx0aScan st).1 < 16 ∧
      (∀ j, j ≠ X → (emulate_instruction ext rnd st).V j = st.V j) ∧
      (emulate_instruction ext rnd st).I = st.I ∧
      (emulate_instruction ext rnd st).ram = st.ram ∧
      (emulate_instruction ext rnd st).stack = st.stack ∧
      (emulate_instruction ext rnd st).sp = st.sp ∧
      (emulate_instruction ext rnd st).delayTimer = st.delayTimer ∧
      (emulate_instruction ext rnd st).soundTimer = st.soundTimer ∧
      (emulate_instruction ext rnd st).display = st.display) := by
  have hw : fetchWord st = (0xF0 + X) * 256 + 0x0A := by
    simp [fetchWord, hb0, hb1]
  have h1 : ((0xF0 + X) * 256 + 0x0A) / 4096 % 16 = 15 := by omega
  have h2 : ((0xF0 + X) * 256 + 0x0A) / 256 % 16 = X := by omega
  have h3 : ((0xF0 + X) * 256 + 0x0A) % 256 = 0x0A := by omega
  have hscan : fx0aScan { st with PC := (st.PC + 2) % 65536 } = fx0aScan st :=
    rfl
  have hrew : ((st.PC + 2) % 65536 + 65534) % 65536 = st.PC := by omega
  constructor
  · intro h
    have hstep : emulate_instruction ext rnd st =
        { st with PC := ((st.PC + 2) % 65536 + 65534) % 65536,
                  key := (fx0aScan st).1,
                  anyKeyPressed := (fx0aScan st).2 } := by
      unfold emulate_instruction
      rw [hw]
      unfold execInst postFetchPC
      simp only [h1, h2, h3]
      norm_num
      rw [hscan]
      rcases h with h | h
      · simp [h]
      · cases hs : (fx0aScan st).2
        · simp
        · simp [h, hs]
    rw [hstep]
    exact ⟨hrew, rfl, rfl, rfl, rfl, rfl, rfl, rfl, rfl⟩
  · rintro ⟨ha, hk⟩
    have hlt0 : (fx0aScan st).2 = true → (fx0aScan st).1 < 16 := by
      unfold fx0aScan
      by_cases hkey : st.key = 255
      · simp only [hkey, ite_true]
        cases hfp : findPressed st.keypad 0 16
        · dsimp only
          intro ha2
          have := hInv ha2
          omega
        · dsimp only
          rename_i i
          intro _
          have := findPressed_lt st.keypad 16 0 i hfp
          omega
      · simp only [hkey, ite_false]
        exact hInv
    have hlt : (fx0aScan st).1 < 16 := hlt0 ha
    have hstep : emulate_instruction ext rnd st =
        { st with PC := (st.PC + 2) % 65536,
                  V := upd st.V X (fx0aScan st).1,
                  key := 255, anyKeyPressed := false } := by
      unfold emulate_instruction
      rw [hw]
      unfold execInst postFetchPC
      simp only [h1, h2, h3]
      norm_num
      rw [hscan]
      simp [ha, hk]
    rw [hstep]
    refine ⟨rfl, by simp [upd], hlt, fun j hj => by simp [upd, hj],
      rfl, rfl, rfl, rfl, rfl, rfl, rfl⟩

/-- Witness for C10_keywait: `F30A` with key 7 observed pressed earlier
and now released — the capture completes and stores 7 in V3. -/
theorem C10_keywait_witness :
    (emulate_instruction Extension.CHIP8 0 c10wst).PC
      = (c10wst.PC + 2) % 65536 ∧
    (emulate_instruction Extension.CHIP8 0 c10wst).V 3 = (fx0aScan c10wst).1 ∧
    (fx0aScan c10wst).1 < 16 ∧
    (emulate_instruction Extension.CHIP8 0 c10wst).I = c10wst.I := by
  have h := (C10_keywait Extension.CHIP8 0 c10wst 3 (by decide) (by decide)
    (by decide) (by decide) (fun _ => by decide)).2 ⟨by decide, by decide⟩
  exact ⟨h.1, h.2.1, h.2.2.1, h.2.2.2.2.1⟩



/-- The effect of one DXYN step: PC advances, the display gets the XOR of
the sprite rows (with clipping), VF is rewritten with the collision bit,
the draw flag is set, and nothing else changes. -/
theorem dxyn_step (ext : Extension) (rnd : Nat) (st : Chip8) (X Y N : Nat)
    (hX : X < 16) (hY : Y < 16) (hN : N < 16)
    (hb0 : st.ram st.PC = 0xD0 + X) (hb1 : st.ram (st.PC + 1) = Y * 16 + N) :
    emulate_instruction ext rnd st =
      { st with
          PC := (st.PC + 2) % 65536,
          display := (drawRows (st.V X % 64)
            ((List.range N).map fun i => st.ram (st.I + i)) (st.V Y % 32)
            ⟨st.display, false⟩).display,
          V := upd st.V 15
            (if (drawRows (st.V X % 64)
              ((List.range N).map fun i => st.ram (st.I + i)) (st.V Y % 32)
              ⟨st.display, false⟩).vf then 1 else 0),
          draw := true } := by
  have hw : fetchWord st = (0xD0 + X) * 256 + (Y * 16 + N) := by
    simp [fetchWord, hb0, hb1]
  have h1 : ((0xD0 + X) * 256 + (Y * 16 + N)) / 4096 % 16 = 13 := by omega
  have h2 : ((0xD0 + X) * 256 + (Y * 16 + N)) / 256 % 16 = X := by omega
  have h3 : ((0xD0 + X) * 256 + (Y * 16 + N)) % 16 = N := by omega
  have h4 : ((0xD0 + X) * 256 + (Y * 16 + N)) / 16 % 16 = Y := by omega
  unfold emulate_instruction
  rw [hw]
  unfold execInst postFetchPC
  simp only [h1, h2, h3, h4]
  norm_num



/-- Claim C7 (amended): executing the same DXYN word twice in a row (same
VX, VY, N, I and sprite bytes; X, Y not 0xF so the VF write cannot alter
the coordinates) restores the framebuffer exactly; when the toggled region
was previously clear, the FIRST draw reports no collision (VF = 0) and
the collision is reported only on the SECOND draw: its VF is 1 exactly
when the sprite toggles at least one cell. -/
theorem C7_draw (ext : Extension) (rnd rnd2 : Nat) (st : Chip8) (X Y N : Nat)
    (hX : X < 16) (hY : Y < 16) (hN : N < 16) (hXF : X ≠ 15) (hYF : Y ≠ 15)
    (hb0 : st.ram st.PC = 0xD0 + X) (hb1 : st.ram (st.PC + 1) = Y * 16 + N)
    (hb0' : st.ram ((st.PC + 2) % 65536) = 0xD0 + X)
    (hb1' : st.ram ((st.PC + 2) % 65536 + 1) = Y * 16 + N) :
    (∀ p, (emulate_instruction ext rnd2
        (emulate_instruction ext rnd st)).display p = st.display p) ∧
    ((∀ p, dxynMask st (fetchWord st) p = true → st.display p = false) →
      (emulate_instruction ext rnd st).V 15 = 0 ∧
      ((emulate_instruction ext rnd2
          (emulate_instruction ext rnd st)).V 15 = 1 ↔
        ∃ p, dxynMask st (fetchWord st) p = true)) := by
  have hw : fetchWord st = (0xD0 + X) * 256 + (Y * 16 + N) := by
    simp [fetchWord, hb0, hb1]
  have h2 : ((0xD0 + X) * 256 + (Y * 16 + N)) / 256 % 16 = X := by omega
  have h3 : ((0xD0 + X) * 256 + (Y * 16 + N)) % 16 = N := by omega
  have h4 : ((0xD0 + X) * 256 + (Y * 16 + N)) / 16 % 16 = Y := by omega
  have hox : st.V X % 64 < 64 := Nat.mod_lt _ (by omega)
  have hmaskp : ∀ p, dxynMask st (fetchWord st) p
      = spriteMask (st.V X % 64)
          ((List.range N).map fun i => st.ram (st.I + i)) (st.V Y % 32) p := by
    intro p
    unfold dxynMask
    rw [hw]
    simp only [h2, h3, h4]
  have hs1 := dxyn_step ext rnd st X Y N hX hY hN hb0 hb1
  have hV1X : (emulate_instruction ext rnd st).V X = st.V X := by
    rw [hs1]
    simp [upd, hXF]
  have hV1Y : (emulate_instruction ext rnd st).V Y = st.V Y := by
    rw [hs1]
    simp [upd, hYF]
  have hram1 : (emulate_instruction ext rnd st).ram = st.ram := by rw [hs1]
  have hI1 : (emulate_instruction ext rnd st).I = st.I := by rw [hs1]
  have hdisp1 : (emulate_instruction ext rnd st).display
      = (drawRows (st.V X % 64)
          ((List.range N).map fun i => st.ram (st.I + i)) (st.V Y % 32)
          ⟨st.display, false⟩).display := by rw [hs1]
  have hs2 := dxyn_step ext rnd2 (emulate_instruction ext rnd st) X Y N hX hY hN
    (by rw [hram1, hs1]; exact hb0') (by rw [hram1, hs1]; exact hb1')
  rw [hram1, hI1, hV1X, hV1Y, hdisp1] at hs2
  refine ⟨?_, ?_⟩
  · intro p
    rw [hs2]
    simp only [drawRows_display]
    simp [Bool.xor_assoc]
  · intro hclear
    have hclear' : ∀ p, spriteMask (st.V X % 64)
        ((List.range N).map fun i => st.ram (st.I + i)) (st.V Y % 32) p = true →
        st.display p = false := by
      intro p hm
      exact hclear p (by rw [hmaskp p]; exact hm)
    have hvf1 : (drawRows (st.V X % 64)
        ((List.range N).map fun i => st.ram (st.I + i)) (st.V Y % 32)
        ⟨st.display, false⟩).vf = false := by
      rw [drawRows_vf hox]
      simp only [Bool.false_or]
      cases hh : spriteHit (st.V X % 64) st.display
          ((List.range N).map fun i => st.ram (st.I + i)) (st.V Y % 32)
      · rfl
      · exfalso
        obtain ⟨p, hm, hd⟩ := (spriteHit_iff hox st.display _ _).mp hh
        rw [hclear' p hm] at hd
        exact Bool.false_ne_true hd
    refine ⟨?_, ?_⟩
    · rw [hs1]
      simp [upd, hvf1]
    · rw [hs2]
      have hvf2 : (drawRows (st.V X % 64)
          ((List.range N).map fun i => st.ram (st.I + i)) (st.V Y % 32)
          ⟨(drawRows (st.V X % 64)
              ((List.range N).map fun i => st.ram (st.I + i)) (st.V Y % 32)
              ⟨st.display, false⟩).display, false⟩).vf = true ↔
          ∃ p, spriteMask (st.V X % 64)
            ((List.range N).map fun i => st.ram (st.I + i)) (st.V Y % 32)
            p = true := by
        rw [drawRows_vf hox]
        simp only [Bool.false_or]
        rw [spriteHit_iff hox]
        constructor
        · rintro ⟨p, hm, _⟩
          exact ⟨p, hm⟩
        · rintro ⟨p, hm⟩
          refine ⟨p, hm, ?_⟩
          simp only [drawRows_display]
          simp [hclear' p hm, hm]
      have hex : (∃ p, dxynMask st (fetchWord st) p = true) ↔
          ∃ p, spriteMask (st.V X % 64)
            ((List.range N).map fun i => st.ram (st.I + i)) (st.V Y % 32)
            p = true :=
        exists_congr fun p => by rw [hmaskp p]
      rw [hex]
      cases hh : (drawRows (st.V X % 64)
          ((List.range N).map fun i => st.ram (st.I + i)) (st.V Y % 32)
          ⟨(drawRows (st.V X % 64)
              ((List.range N).map fun i => st.ram (st.I + i)) (st.V Y % 32)
              ⟨st.display, false⟩).display, false⟩).vf
      · rw [hh] at hvf2
        simp only [upd]
        simp [hvf2]
      · rw [hh] at hvf2
        simp [upd, hh]
        exact hvf2.mp rfl



/-- Witness for C7_draw at the double-draw ROM `D0 11 D0 11`. -/
theorem C7_draw_witness :
    (∀ p, (emulate_instruction Extension.CHIP8 0
        (emulate_instruction Extension.CHIP8 0 c7st)).display p
      = c7st.display p) ∧
    (emulate_instruction Extension.CHIP8 0 c7st).V 15 = 0 := by
  have h := C7_draw Extension.CHIP8 0 0 c7st 0 1 1 (by decide) (by decide)
    (by decide) (by decide) (by decide) (by decide) (by decide) (by decide)
    (by decide)
  exact ⟨h.1, (h.2 fun p _ => rfl).1⟩


end Chip8Emu
